import Mathlib

/-!
# BufferedStream: a shallow embedding of the bell buffered stream

The repository exposes `BufferedStream` (src/include/BufferedStream.h): a
circular reading buffer wrapped around a byte source, refilled by a
background task, with threshold-based readiness signaling.  The header
declares the interface and the state fields (`bufferSize`, `readAt`,
`readSize`, `readyThreshold`, `notReadyThreshold`, `waitForReady`,
`endWithSource`, `running`, `terminate`, `readTotal`, `readAvailable`,
`bufReadPtr`, `bufWritePtr`, `buf`); the method bodies live in a
translation unit that is not part of the header, so each operation below
is modelled from the specification's component design (spec.md §4).

The embedding is sequential: the background refill task's iterations are
events interleaved with consumer `read`/`skip` calls.  Semaphore waits
only decide *when* an iteration runs, which the event interleaving already
ranges over, so the signals themselves need no state here.  Byte storage is
a total function `Nat → Nat` read and written only at offsets reduced
modulo `bufferSize`, matching the header's `buf`/`bufEnd` pointer window;
the external source is the list of bytes it has not yet produced.
-/

/-- The state of one `BufferedStream`, with the header's field names.
`buf` is the byte storage (indexed modulo `bufferSize`), `bufReadPtr` and
`bufWritePtr` are offsets in `[0, bufferSize)`, `remaining` is the byte
sequence the external source has not yet produced. -/
structure StreamState where
  bufferSize : Nat
  readAt : Nat
  readSize : Nat
  readyThreshold : Nat
  notReadyThreshold : Nat
  waitForReady : Bool
  endWithSource : Bool
  running : Bool
  terminate : Bool
  readTotal : Nat
  readAvailable : Nat
  bufReadPtr : Nat
  bufWritePtr : Nat
  buf : Nat → Nat
  remaining : List Nat

/-- Modelled from the spec (§4.1 `write`): copy `chunk` into storage byte by
byte starting at offset `wc`, every offset reduced modulo `cap`.  A request
that spans the end of storage therefore wraps around, exactly as the
header's split copy through `bufWritePtr`/`bufEnd` does. -/
def writeBytes (cap : Nat) (storage : Nat → Nat) (wc : Nat) : List Nat → (Nat → Nat)
  | [] => storage
  | b :: rest => writeBytes cap (Function.update storage (wc % cap) b) (wc + 1) rest

/-- Modelled from the spec (§4.1 `drain`): the `n` bytes of storage starting
at offset `rc`, offsets reduced modulo `cap` (wrap-aware copy out). -/
def drainBytes (cap : Nat) (storage : Nat → Nat) (rc n : Nat) : List Nat :=
  (List.range n).map (fun j => storage ((rc + j) % cap))

/-- The bytes currently buffered and available for reading: `readAvailable`
bytes starting at `bufReadPtr`, wrapping at `bufferSize`. -/
def bufContents (s : StreamState) : List Nat :=
  drainBytes s.bufferSize s.buf s.bufReadPtr s.readAvailable

/-- Modelled from the spec (§4.2): `isReady()` is the pure query
`occupancy ≥ readyThreshold`, recomputed from the current `readAvailable`. -/
def isReady (s : StreamState) : Bool :=
  s.readyThreshold ≤ s.readAvailable

/-- Modelled from the spec (§4.2): `isNotReady()` is the pure query
`occupancy ≤ notReadyThreshold`, recomputed from the current `readAvailable`. -/
def isNotReady (s : StreamState) : Bool :=
  s.readAvailable ≤ s.notReadyThreshold

/-- The length the refill task requests from the source on one iteration
(spec §4.4 step 3): `min(readSize, capacity - occupancy)`. -/
def fillRequestLen (s : StreamState) : Nat :=
  min s.readSize (s.bufferSize - s.readAvailable)

/-- Modelled from the spec (§4.4, `runTask` body absent from the header):
one iteration of the refill task.  While `terminate` is unset it computes
the request length `min(readSize, capacity - occupancy)`; if that is zero
it loops back without touching the source; otherwise it reads up to that
many bytes from the source, and on a zero-byte answer either terminates
(`endWithSource`) or retries later, else writes the chunk at `bufWritePtr`
and raises `readAvailable`. -/
def fillStep (s : StreamState) : StreamState :=
  if s.terminate then s
  else
    let len := fillRequestLen s
    if len = 0 then s
    else
      let chunk := s.remaining.take len
      if chunk.length = 0 then
        if s.endWithSource then { s with terminate := true } else s
      else
        { s with
          buf := writeBytes s.bufferSize s.buf s.bufWritePtr chunk,
          bufWritePtr := (s.bufWritePtr + chunk.length) % s.bufferSize,
          readAvailable := s.readAvailable + chunk.length,
          remaining := s.remaining.drop len }

/-- Modelled from the spec (§4.5 `read`, body absent from the header):
return nothing when not running; otherwise drain up to `len` bytes from
`bufReadPtr`, advance the cursor modulo `bufferSize`, lower `readAvailable`
and raise `readTotal` by the number of bytes actually delivered.  Blocking
(`waitForReady`) only defers the call until producer events have run, which
the event interleaving models. -/
def readOp (s : StreamState) (len : Nat) : StreamState × List Nat :=
  if s.running = false then (s, [])
  else
    let n := min len s.readAvailable
    ({ s with
       bufReadPtr := (s.bufReadPtr + n) % s.bufferSize,
       readAvailable := s.readAvailable - n,
       readTotal := s.readTotal + n },
     drainBytes s.bufferSize s.buf s.bufReadPtr n)

/-- Modelled from the spec (§4.5 `skip`): exactly `read` with the output
discarded; it advances `readTotal` the same way and returns the count. -/
def skipOp (s : StreamState) (len : Nat) : StreamState × Nat :=
  let r := readOp s len
  (r.1, r.2.length)

/-- Modelled from the spec (§4.5 `position`): returns `readTotal`. -/
def position (s : StreamState) : Nat :=
  s.readTotal

/-- Modelled from the spec (§4.5 `open`): fails, mutating nothing, when
already running; otherwise resets the ring buffer (cursors and occupancy
zeroed), stores the source, clears `terminate` and sets `running`. -/
def openOp (s : StreamState) (src : List Nat) : Bool × StreamState :=
  if s.running then (false, s)
  else
    (true,
     { s with
       running := true,
       terminate := false,
       bufReadPtr := 0,
       bufWritePtr := 0,
       readAvailable := 0,
       remaining := src })

/-- Modelled from the spec (§4.5 `close`, state content only): sets
`terminate` and clears `running`.  The signal releases and the join of the
task are scheduling actions with no further state content here. -/
def closeOp (s : StreamState) : StreamState :=
  { s with terminate := true, running := false }

/-- Modelled from the spec (§6 construction, §7 configuration violation):
construction validates `notReadyThreshold ≤ readyThreshold ≤ capacity` and
fails fast (no object) when the constraint is violated.  The constructed
stream is closed (`running = false`) with an empty, zeroed buffer. -/
def mkBufferedStream (bufferSize readThreshold readSize readyThreshold notReadyThreshold : Nat)
    (waitForReady endWithSource : Bool) : Option StreamState :=
  if notReadyThreshold ≤ readyThreshold ∧ readyThreshold ≤ bufferSize then
    some
      { bufferSize := bufferSize,
        readAt := readThreshold,
        readSize := readSize,
        readyThreshold := readyThreshold,
        notReadyThreshold := notReadyThreshold,
        waitForReady := waitForReady,
        endWithSource := endWithSource,
        running := false,
        terminate := false,
        readTotal := 0,
        readAvailable := 0,
        bufReadPtr := 0,
        bufWritePtr := 0,
        buf := fun _ => 0,
        remaining := [] }
  else none

/-- One observable event of a session: a refill-task iteration, a consumer
`read` of a given destination length, or a consumer `skip`. -/
inductive Ev where
  | fill : Ev
  | readEv : Nat → Ev
  | skipEv : Nat → Ev
deriving DecidableEq

/-- One event applied to a state: the successor state, the bytes the event
delivered to the caller through `read`, and the byte count the event
returned (`read` and `skip` both return counts; `fill` returns none). -/
def step (s : StreamState) : Ev → StreamState × List Nat × Nat
  | Ev.fill => (fillStep s, [], 0)
  | Ev.readEv len =>
      let r := readOp s len
      (r.1, r.2, r.2.length)
  | Ev.skipEv len =>
      let r := skipOp s len
      (r.1, [], r.2)

/-- A whole session fragment: the final state, the concatenation of all
bytes delivered by `read`, and the sum of all counts returned. -/
def run (s : StreamState) : List Ev → StreamState × List Nat × Nat
  | [] => (s, [], 0)
  | e :: es =>
      let r := step s e
      let r2 := run r.1 es
      (r2.1, r.2.1 ++ r2.2.1, r.2.2 + r2.2.2)

/-- A sample open stream: capacity 8, thresholds 5/2, `endWithSource` set,
buffer empty, ten source bytes pending. -/
def exState : StreamState :=
  { bufferSize := 8, readAt := 4, readSize := 3, readyThreshold := 5,
    notReadyThreshold := 2, waitForReady := false, endWithSource := true,
    running := true, terminate := false, readTotal := 0, readAvailable := 0,
    bufReadPtr := 0, bufWritePtr := 0, buf := fun _ => 0,
    remaining := [1, 2, 3, 4, 5, 6, 7, 8, 9, 10] }

/-- The stream `mkBufferedStream 8 4 3 5 2 false false` constructs. -/
def exClosed : StreamState :=
  { bufferSize := 8, readAt := 4, readSize := 3, readyThreshold := 5,
    notReadyThreshold := 2, waitForReady := false, endWithSource := false,
    running := false, terminate := false, readTotal := 0, readAvailable := 0,
    bufReadPtr := 0, bufWritePtr := 0, buf := fun _ => 0, remaining := [] }

/-- C3: `isReady()` holds exactly when `readAvailable ≥ readyThreshold`,
`isNotReady()` exactly when `readAvailable ≤ notReadyThreshold`, and both
are pure functions of the current occupancy and thresholds: two states
agreeing on those fields agree on both queries, whatever their other
(potentially "stored-flag") state is. -/
theorem c3_readiness_pure (s t : StreamState)
    (hocc : s.readAvailable = t.readAvailable)
    (hry : s.readyThreshold = t.readyThreshold)
    (hnr : s.notReadyThreshold = t.notReadyThreshold) :
    (isReady s = true ↔ s.readyThreshold ≤ s.readAvailable) ∧
    (isNotReady s = true ↔ s.readAvailable ≤ s.notReadyThreshold) ∧
    isReady s = isReady t ∧ isNotReady s = isNotReady t := by
  refine ⟨by simp [isReady], by simp [isNotReady], ?_, ?_⟩
  · simp [isReady, hocc, hry]
  · simp [isNotReady, hocc, hnr]

/-- Witness for C3 at a concrete state. -/
theorem c3_readiness_pure_witness :
    (isReady exState = true ↔ exState.readyThreshold ≤ exState.readAvailable) ∧
    (isNotReady exState = true ↔ exState.readAvailable ≤ exState.notReadyThreshold) ∧
    isReady exState = isReady exState ∧ isNotReady exState = isNotReady exState :=
  c3_readiness_pure exState exState rfl rfl rfl

/-- C5: `open` on an already-running stream reports failure and leaves the
whole state — buffer, cursors, occupancy, `readTotal`, source — untouched. -/
theorem c5_open_already_running (s : StreamState) (src : List Nat)
    (h : s.running = true) : openOp s src = (false, s) := by
  simp [openOp, h]

/-- Witness for C5 at a concrete running state. -/
theorem c5_open_already_running_witness : openOp exState [11, 12] = (false, exState) :=
  c5_open_already_running exState [11, 12] rfl

/-- C6: `position()` returns `readTotal`, and a refill-task iteration —
which moves the source's own position and the buffered occupancy — leaves
`position()` unchanged. -/
theorem c6_position_is_readTotal :
    (∀ s : StreamState, position s = s.readTotal) ∧
    (∀ s : StreamState, position (fillStep s) = position s) := by
  refine ⟨fun s => rfl, fun s => ?_⟩
  simp only [position, fillStep]
  split_ifs <;> rfl

/-- C9: construction succeeds exactly when
`notReadyThreshold ≤ readyThreshold ≤ capacity`, failing fast otherwise,
and a constructed stream carries the validated thresholds. -/
theorem c9_construction_validates (b rt rs ry nr : Nat) (w e : Bool)
    (s : StreamState) :
    ((mkBufferedStream b rt rs ry nr w e).isSome = true ↔ nr ≤ ry ∧ ry ≤ b) ∧
    (mkBufferedStream b rt rs ry nr w e = some s →
      s.notReadyThreshold ≤ s.readyThreshold ∧ s.readyThreshold ≤ s.bufferSize ∧
      s.bufferSize = b ∧ s.readyThreshold = ry ∧ s.notReadyThreshold = nr) := by
  unfold mkBufferedStream
  split
  · rename_i hok
    refine ⟨by simp [hok], fun hs => ?_⟩
    cases hs
    exact ⟨hok.1, hok.2, rfl, rfl, rfl⟩
  · rename_i hbad
    refine ⟨by simpa using hbad, fun hs => by cases hs⟩

/-- Witness for C9: a valid configuration constructs, and the constructed
stream carries its thresholds. -/
theorem c9_construction_validates_witness :
    (mkBufferedStream 8 4 3 5 2 false false).isSome = true ∧
    (exClosed.notReadyThreshold ≤ exClosed.readyThreshold ∧
      exClosed.readyThreshold ≤ exClosed.bufferSize ∧
      exClosed.bufferSize = 8 ∧ exClosed.readyThreshold = 5 ∧
      exClosed.notReadyThreshold = 2) :=
  ⟨(c9_construction_validates 8 4 3 5 2 false false exClosed).1.mpr (by decide),
   (c9_construction_validates 8 4 3 5 2 false false exClosed).2 rfl⟩

lemma drainBytes_length (cap : Nat) (st : Nat → Nat) (rc n : Nat) :
    (drainBytes cap st rc n).length = n := by
  simp [drainBytes]

lemma fillStep_bufferSize (s : StreamState) : (fillStep s).bufferSize = s.bufferSize := by
  simp only [fillStep]
  split_ifs <;> rfl

lemma fillStep_readTotal (s : StreamState) : (fillStep s).readTotal = s.readTotal := by
  simp only [fillStep]
  split_ifs <;> rfl

lemma fillStep_readAvailable_le (s : StreamState)
    (h : s.readAvailable ≤ s.bufferSize) :
    (fillStep s).readAvailable ≤ s.bufferSize := by
  simp only [fillStep]
  split_ifs with h1 h2 h3 h4
  · exact h
  · exact h
  · exact h
  · exact h
  · dsimp only
    have hchunk : (s.remaining.take (fillRequestLen s)).length ≤ fillRequestLen s := by
      simp [List.length_take]
    have hfree : fillRequestLen s ≤ s.bufferSize - s.readAvailable :=
      min_le_right _ _
    omega

lemma step_bufferSize (s : StreamState) (e : Ev) :
    (step s e).1.bufferSize = s.bufferSize := by
  cases e with
  | fill => exact fillStep_bufferSize s
  | readEv len =>
    simp only [step, readOp]
    split_ifs <;> rfl
  | skipEv len =>
    simp only [step, skipOp, readOp]
    split_ifs <;> rfl

lemma step_readAvailable_le (s : StreamState) (e : Ev)
    (h : s.readAvailable ≤ s.bufferSize) :
    (step s e).1.readAvailable ≤ s.bufferSize := by
  cases e with
  | fill => exact fillStep_readAvailable_le s h
  | readEv len =>
    simp only [step, readOp]
    split_ifs
    · exact h
    · dsimp only
      omega
  | skipEv len =>
    simp only [step, skipOp, readOp]
    split_ifs
    · exact h
    · dsimp only
      omega

lemma step_readTotal (s : StreamState) (e : Ev) :
    (step s e).1.readTotal = s.readTotal + (step s e).2.2 := by
  cases e with
  | fill => simpa using fillStep_readTotal s
  | readEv len =>
    simp only [step, readOp]
    split_ifs
    · simp
    · simp [drainBytes_length]
  | skipEv len =>
    simp only [step, skipOp, readOp]
    split_ifs
    · simp
    · simp [drainBytes_length]

/-- C2: across any interleaving of refill-task iterations, reads and skips,
the occupancy `readAvailable` stays within `0 ≤ occupancy ≤ bufferSize`;
since the event list is arbitrary, this holds at every observation point,
and the capacity itself never changes. -/
theorem c2_occupancy_bounded (s : StreamState) (evs : List Ev)
    (h : s.readAvailable ≤ s.bufferSize) :
    0 ≤ (run s evs).1.readAvailable ∧
    (run s evs).1.readAvailable ≤ (run s evs).1.bufferSize ∧
    (run s evs).1.bufferSize = s.bufferSize := by
  induction evs generalizing s with
  | nil => exact ⟨Nat.zero_le _, h, rfl⟩
  | cons e es ih =>
    have h1 := step_readAvailable_le s e h
    have h2 := step_bufferSize s e
    have h3 := ih (step s e).1 (h2 ▸ h1)
    simp only [run]
    exact ⟨Nat.zero_le _, h3.2.1, h3.2.2.trans h2⟩

/-- Witness for C2 on a concrete interleaved session. -/
theorem c2_occupancy_bounded_witness :
    0 ≤ (run exState [Ev.fill, Ev.fill, Ev.readEv 2, Ev.fill, Ev.skipEv 1]).1.readAvailable ∧
    (run exState [Ev.fill, Ev.fill, Ev.readEv 2, Ev.fill, Ev.skipEv 1]).1.readAvailable ≤
      (run exState [Ev.fill, Ev.fill, Ev.readEv 2, Ev.fill, Ev.skipEv 1]).1.bufferSize ∧
    (run exState [Ev.fill, Ev.fill, Ev.readEv 2, Ev.fill, Ev.skipEv 1]).1.bufferSize =
      exState.bufferSize :=
  c2_occupancy_bounded exState [Ev.fill, Ev.fill, Ev.readEv 2, Ev.fill, Ev.skipEv 1]
    (by decide)

/-- C7: over any event sequence, the final `readTotal` is the initial one
plus the sum of the byte counts actually returned by the `read` and `skip`
calls in it (refill iterations contribute nothing), and `readTotal` never
decreases. -/
theorem c7_readTotal_sums_returns (s : StreamState) (evs : List Ev) :
    (run s evs).1.readTotal = s.readTotal + (run s evs).2.2 ∧
    s.readTotal ≤ (run s evs).1.readTotal := by
  induction evs generalizing s with
  | nil => simp [run]
  | cons e es ih =>
    have h1 := step_readTotal s e
    have h2 := ih (step s e).1
    simp only [run]
    constructor
    · rw [h2.1, h1]
      omega
    · calc s.readTotal ≤ (step s e).1.readTotal := by rw [h1]; omega
        _ ≤ _ := h2.2

lemma mod_add_cancel (cap a b x : Nat) (ha : a < cap) (hb : b < cap)
    (h : (x + a) % cap = (x + b) % cap) : a = b := by
  have h2 : a ≡ b [MOD cap] := Nat.ModEq.add_left_cancel' x h
  calc a = a % cap := (Nat.mod_eq_of_lt ha).symm
    _ = b % cap := h2
    _ = b := Nat.mod_eq_of_lt hb

lemma writeBytes_notin (cap : Nat) : ∀ (chunk : List Nat) (st : Nat → Nat) (wc x : Nat),
    (∀ i, i < chunk.length → x ≠ (wc + i) % cap) →
    writeBytes cap st wc chunk x = st x := by
  intro chunk
  induction chunk with
  | nil => intro st wc x _; rfl
  | cons b rest ih =>
    intro st wc x h
    have h0 : x ≠ wc % cap := by
      have h1 := h 0 (by simp)
      simpa using h1
    have hrest : ∀ i, i < rest.length → x ≠ (wc + 1 + i) % cap := by
      intro i hi
      have h2 := h (i + 1) (by simp only [List.length_cons]; omega)
      rw [show wc + 1 + i = wc + (i + 1) from by omega]
      exact h2
    simp only [writeBytes]
    rw [ih (Function.update st (wc % cap) b) (wc + 1) x hrest]
    exact Function.update_noteq h0 b st

lemma writeBytes_at (cap : Nat) : ∀ (chunk : List Nat) (st : Nat → Nat) (wc k : Nat),
    k < chunk.length →
    (∀ i, k < i → i < chunk.length → (wc + k) % cap ≠ (wc + i) % cap) →
    writeBytes cap st wc chunk ((wc + k) % cap) = chunk.getD k 0 := by
  intro chunk
  induction chunk with
  | nil => intro st wc k hk _; simp at hk
  | cons b rest ih =>
    intro st wc k hk hdist
    simp only [writeBytes]
    cases k with
    | zero =>
      rw [writeBytes_notin cap rest (Function.update st (wc % cap) b) (wc + 1)
            ((wc + 0) % cap) ?_]
      · simp
      · intro i hi
        have h2 := hdist (i + 1) (by omega) (by simp only [List.length_cons]; omega)
        rw [show wc + 1 + i = wc + (i + 1) from by omega]
        exact h2
    | succ k2 =>
      have hk2 : k2 < rest.length := by
        simp only [List.length_cons] at hk
        omega
      have hdist2 : ∀ i, k2 < i → i < rest.length →
          (wc + 1 + k2) % cap ≠ (wc + 1 + i) % cap := by
        intro i hlt hilen
        have h2 := hdist (i + 1) (by omega) (by simp only [List.length_cons]; omega)
        rw [show wc + 1 + k2 = wc + (k2 + 1) from by omega,
            show wc + 1 + i = wc + (i + 1) from by omega]
        exact h2
      have h3 := ih (Function.update st (wc % cap) b) (wc + 1) k2 hk2 hdist2
      rw [show wc + (k2 + 1) = wc + 1 + k2 from by omega]
      simpa using h3

lemma map_range_getD (l : List Nat) :
    (List.range l.length).map (fun i => l.getD i 0) = l := by
  apply List.ext_getElem
  · simp
  · intro i h1 h2
    simp only [List.getElem_map, List.getElem_range]
    exact List.getD_eq_getElem l 0 h2

lemma writeBytes_contents (cap : Nat) (st : Nat → Nat) (rc occ : Nat)
    (chunk : List Nat) (hocc : occ + chunk.length ≤ cap) :
    drainBytes cap (writeBytes cap st ((rc + occ) % cap) chunk) rc (occ + chunk.length)
      = drainBytes cap st rc occ ++ chunk := by
  unfold drainBytes
  rw [List.range_add, List.map_append, List.map_map]
  congr 1
  · apply List.map_congr_left
    intro j hj
    have hj2 : j < occ := List.mem_range.mp hj
    apply writeBytes_notin
    intro i hi heq
    rw [Nat.mod_add_mod, Nat.add_assoc] at heq
    have hja : j < cap := by omega
    have hob : occ + i < cap := by omega
    have := mod_add_cancel cap j (occ + i) rc hja hob heq
    omega
  · have hstep : ∀ i ∈ List.range chunk.length,
        writeBytes cap st ((rc + occ) % cap) chunk ((rc + (occ + i)) % cap)
          = chunk.getD i 0 := by
      intro i hi
      have hi2 : i < chunk.length := List.mem_range.mp hi
      have hpos : (rc + (occ + i)) % cap = ((rc + occ) % cap + i) % cap := by
        rw [Nat.mod_add_mod, Nat.add_assoc]
      rw [hpos]
      apply writeBytes_at cap chunk st ((rc + occ) % cap) i hi2
      intro i2 hlt hi2len heq
      rw [Nat.mod_add_mod, Nat.mod_add_mod] at heq
      have ha : occ + i < cap := by omega
      have hb : occ + i2 < cap := by omega
      have heq2 : (rc + (occ + i)) % cap = (rc + (occ + i2)) % cap := by
        rw [← Nat.add_assoc, ← Nat.add_assoc]
        exact heq
      have := mod_add_cancel cap (occ + i) (occ + i2) rc ha hb heq2
      omega
    calc (List.range chunk.length).map
          ((fun j => writeBytes cap st ((rc + occ) % cap) chunk ((rc + j) % cap)) ∘
            (fun i => occ + i))
        = (List.range chunk.length).map
            (fun i => writeBytes cap st ((rc + occ) % cap) chunk ((rc + (occ + i)) % cap)) := rfl
      _ = (List.range chunk.length).map (fun i => chunk.getD i 0) := List.map_congr_left hstep
      _ = chunk := map_range_getD chunk

lemma drainBytes_take (cap : Nat) (st : Nat → Nat) (rc n occ : Nat) (h : n ≤ occ) :
    drainBytes cap st rc n = (drainBytes cap st rc occ).take n := by
  unfold drainBytes
  rw [← List.map_take, List.take_range, Nat.min_eq_left h]

lemma drainBytes_drop (cap : Nat) (st : Nat → Nat) (rc n occ : Nat) (h : n ≤ occ) :
    drainBytes cap st ((rc + n) % cap) (occ - n) = (drainBytes cap st rc occ).drop n := by
  unfold drainBytes
  conv_rhs => rw [show occ = n + (occ - n) from by omega]
  rw [List.range_add, List.map_append,
      List.drop_left' (by simp), List.map_map]
  apply List.map_congr_left
  intro j _
  simp only [Function.comp_apply]
  rw [Nat.mod_add_mod, Nat.add_assoc]

/-- The ring-buffer well-formedness invariant (spec §3): positive capacity,
occupancy at most capacity, read cursor inside storage, and the write
cursor sitting `occupancy` bytes past the read cursor modulo capacity. -/
def RingInv (s : StreamState) : Prop :=
  0 < s.bufferSize ∧ s.readAvailable ≤ s.bufferSize ∧
  s.bufReadPtr < s.bufferSize ∧
  s.bufWritePtr = (s.bufReadPtr + s.readAvailable) % s.bufferSize

instance (s : StreamState) : Decidable (RingInv s) := by
  unfold RingInv
  infer_instance

lemma fillStep_conserves (s : StreamState) (h : RingInv s) :
    RingInv (fillStep s) ∧
    bufContents (fillStep s) ++ (fillStep s).remaining
      = bufContents s ++ s.remaining := by
  obtain ⟨hcap, hocc, hrc, hwc⟩ := h
  simp only [fillStep]
  split_ifs with h1 h2 h3 h4
  · exact ⟨⟨hcap, hocc, hrc, hwc⟩, rfl⟩
  · exact ⟨⟨hcap, hocc, hrc, hwc⟩, rfl⟩
  · exact ⟨⟨hcap, hocc, hrc, hwc⟩, rfl⟩
  · exact ⟨⟨hcap, hocc, hrc, hwc⟩, rfl⟩
  · have hcl : (s.remaining.take (fillRequestLen s)).length ≤ fillRequestLen s := by
      simp [List.length_take]
    have hfree : fillRequestLen s ≤ s.bufferSize - s.readAvailable :=
      min_le_right _ _
    have hle : s.readAvailable + (s.remaining.take (fillRequestLen s)).length
        ≤ s.bufferSize := by omega
    refine ⟨⟨hcap, hle, hrc, ?_⟩, ?_⟩
    · dsimp only
      rw [hwc, Nat.mod_add_mod, Nat.add_assoc]
    · show drainBytes s.bufferSize
          (writeBytes s.bufferSize s.buf s.bufWritePtr (s.remaining.take (fillRequestLen s)))
          s.bufReadPtr
          (s.readAvailable + (s.remaining.take (fillRequestLen s)).length)
          ++ s.remaining.drop (fillRequestLen s)
        = bufContents s ++ s.remaining
      rw [hwc, writeBytes_contents s.bufferSize s.buf s.bufReadPtr s.readAvailable
            (s.remaining.take (fillRequestLen s)) hle]
      rw [List.append_assoc, List.take_append_drop]
      rfl

lemma readOp_conserves (s : StreamState) (len : Nat) (h : RingInv s) :
    RingInv (readOp s len).1 ∧
    (readOp s len).2 ++ bufContents (readOp s len).1 ++ (readOp s len).1.remaining
      = bufContents s ++ s.remaining := by
  obtain ⟨hcap, hocc, hrc, hwc⟩ := h
  simp only [readOp]
  split_ifs with h1
  · exact ⟨⟨hcap, hocc, hrc, hwc⟩, rfl⟩
  · have hn : min len s.readAvailable ≤ s.readAvailable := min_le_right _ _
    refine ⟨⟨hcap, by dsimp only; omega, Nat.mod_lt _ hcap, ?_⟩, ?_⟩
    · dsimp only
      rw [hwc, Nat.mod_add_mod,
          show s.bufReadPtr + min len s.readAvailable +
              (s.readAvailable - min len s.readAvailable)
            = s.bufReadPtr + s.readAvailable from by omega]
    · show drainBytes s.bufferSize s.buf s.bufReadPtr (min len s.readAvailable)
          ++ drainBytes s.bufferSize s.buf
              ((s.bufReadPtr + min len s.readAvailable) % s.bufferSize)
              (s.readAvailable - min len s.readAvailable)
          ++ s.remaining
        = bufContents s ++ s.remaining
      rw [drainBytes_take s.bufferSize s.buf s.bufReadPtr (min len s.readAvailable)
            s.readAvailable hn,
          drainBytes_drop s.bufferSize s.buf s.bufReadPtr (min len s.readAvailable)
            s.readAvailable hn]
      rw [show (drainBytes s.bufferSize s.buf s.bufReadPtr s.readAvailable).take
              (min len s.readAvailable)
            ++ (drainBytes s.bufferSize s.buf s.bufReadPtr s.readAvailable).drop
                (min len s.readAvailable)
          = drainBytes s.bufferSize s.buf s.bufReadPtr s.readAvailable from
          List.take_append_drop _ _]
      rfl

/-- Whether an event is a consumer `skip` call. -/
def Ev.skipFlag : Ev → Bool
  | Ev.skipEv _ => true
  | _ => false

lemma step_conserves (s : StreamState) (e : Ev) (h : RingInv s)
    (hs : e.skipFlag = false) :
    RingInv (step s e).1 ∧
    (step s e).2.1 ++ bufContents (step s e).1 ++ (step s e).1.remaining
      = bufContents s ++ s.remaining := by
  cases e with
  | fill =>
    have h2 := fillStep_conserves s h
    exact ⟨h2.1, by simpa using h2.2⟩
  | readEv len => exact readOp_conserves s len h
  | skipEv len => simp [Ev.skipFlag] at hs

lemma run_conserves (evs : List Ev) : ∀ s : StreamState, RingInv s →
    (∀ e ∈ evs, e.skipFlag = false) →
    RingInv (run s evs).1 ∧
    (run s evs).2.1 ++ bufContents (run s evs).1 ++ (run s evs).1.remaining
      = bufContents s ++ s.remaining := by
  induction evs with
  | nil => intro s h _; exact ⟨h, rfl⟩
  | cons e es ih =>
    intro s h hns
    have h1 := step_conserves s e h (hns e (by simp))
    have h2 := ih (step s e).1 h1.1 (fun e2 he2 => hns e2 (by simp [he2]))
    refine ⟨h2.1, ?_⟩
    simp only [run]
    calc ((step s e).2.1 ++ (run (step s e).1 es).2.1)
          ++ bufContents (run (step s e).1 es).1 ++ (run (step s e).1 es).1.remaining
        = (step s e).2.1 ++ ((run (step s e).1 es).2.1
            ++ bufContents (run (step s e).1 es).1
            ++ (run (step s e).1 es).1.remaining) := by
          simp [List.append_assoc]
      _ = (step s e).2.1 ++ (bufContents (step s e).1 ++ (step s e).1.remaining) := by
          rw [h2.2]
      _ = bufContents s ++ s.remaining := by
          rw [← List.append_assoc]
          exact h1.2

/-- C1: open a non-running stream on a source byte sequence and run any
interleaving of refill-task iterations and `read` calls (arbitrary chunk
sizes, including ones crossing the capacity/wraparound boundary).  The
bytes delivered by `read`, the bytes still buffered and the bytes the
source has not yet produced concatenate back to exactly the source
sequence; in particular the delivered bytes are precisely the first
`outs.length` source bytes, in order and with the same content. -/
theorem c1_round_trip (s : StreamState) (src : List Nat) (evs : List Ev)
    (hcap : 0 < s.bufferSize) (hrun : s.running = false)
    (hnoskip : ∀ e ∈ evs, e.skipFlag = false) :
    (run (openOp s src).2 evs).2.1 ++ bufContents (run (openOp s src).2 evs).1
        ++ (run (openOp s src).2 evs).1.remaining = src ∧
    (run (openOp s src).2 evs).2.1
      = src.take (run (openOp s src).2 evs).2.1.length := by
  have hopen : (openOp s src).2
      = { s with running := true, terminate := false, bufReadPtr := 0,
                 bufWritePtr := 0, readAvailable := 0, remaining := src } := by
    simp [openOp, hrun]
  have hInv : RingInv (openOp s src).2 := by
    rw [hopen]
    refine ⟨hcap, by simp, hcap, ?_⟩
    simp
  have hcont : bufContents (openOp s src).2 = [] := by
    rw [hopen]
    simp [bufContents, drainBytes]
  have hrem : (openOp s src).2.remaining = src := by rw [hopen]
  have h := run_conserves evs (openOp s src).2 hInv hnoskip
  have heq : (run (openOp s src).2 evs).2.1
      ++ bufContents (run (openOp s src).2 evs).1
      ++ (run (openOp s src).2 evs).1.remaining = src := by
    rw [h.2, hcont, hrem]
    rfl
  refine ⟨heq, ?_⟩
  have heq2 : (run (openOp s src).2 evs).2.1
      ++ (bufContents (run (openOp s src).2 evs).1
          ++ (run (openOp s src).2 evs).1.remaining) = src := by
    rw [← List.append_assoc]
    exact heq
  exact (List.take_left _ _).symm.trans
    (congrArg (fun l => List.take (run (openOp s src).2 evs).2.1.length l) heq2)

/-- Witness for C1: a capacity-8 stream, a ten-byte source and a schedule
whose reads cross the wraparound boundary reproduce the exact sequence. -/
theorem c1_round_trip_witness :
    (run (openOp exClosed [1, 2, 3, 4, 5, 6, 7, 8, 9, 10]).2
        [Ev.fill, Ev.fill, Ev.fill, Ev.readEv 5, Ev.fill, Ev.fill, Ev.readEv 9]).2.1
      ++ bufContents (run (openOp exClosed [1, 2, 3, 4, 5, 6, 7, 8, 9, 10]).2
        [Ev.fill, Ev.fill, Ev.fill, Ev.readEv 5, Ev.fill, Ev.fill, Ev.readEv 9]).1
      ++ (run (openOp exClosed [1, 2, 3, 4, 5, 6, 7, 8, 9, 10]).2
        [Ev.fill, Ev.fill, Ev.fill, Ev.readEv 5, Ev.fill, Ev.fill, Ev.readEv 9]).1.remaining
      = [1, 2, 3, 4, 5, 6, 7, 8, 9, 10] ∧
    (run (openOp exClosed [1, 2, 3, 4, 5, 6, 7, 8, 9, 10]).2
        [Ev.fill, Ev.fill, Ev.fill, Ev.readEv 5, Ev.fill, Ev.fill, Ev.readEv 9]).2.1
      = List.take (run (openOp exClosed [1, 2, 3, 4, 5, 6, 7, 8, 9, 10]).2
          [Ev.fill, Ev.fill, Ev.fill, Ev.readEv 5, Ev.fill, Ev.fill, Ev.readEv 9]).2.1.length
          [1, 2, 3, 4, 5, 6, 7, 8, 9, 10] :=
  c1_round_trip exClosed [1, 2, 3, 4, 5, 6, 7, 8, 9, 10]
    [Ev.fill, Ev.fill, Ev.fill, Ev.readEv 5, Ev.fill, Ev.fill, Ev.readEv 9]
    (by decide) rfl (by decide)

lemma fillStep_eq_of_noterm (s : StreamState) (h : s.terminate = false) :
    fillStep s =
      (if fillRequestLen s = 0 then s
       else if (s.remaining.take (fillRequestLen s)).length = 0 then
         (if s.endWithSource then { s with terminate := true } else s)
       else
         { s with
           buf := writeBytes s.bufferSize s.buf s.bufWritePtr
             (s.remaining.take (fillRequestLen s)),
           bufWritePtr := (s.bufWritePtr + (s.remaining.take (fillRequestLen s)).length)
             % s.bufferSize,
           readAvailable := s.readAvailable + (s.remaining.take (fillRequestLen s)).length,
           remaining := s.remaining.drop (fillRequestLen s) }) := by
  unfold fillStep
  rw [if_neg (by simp [h])]

/-- C8: while not terminating, a refill iteration requests exactly
`min(readSize, capacity - occupancy)` bytes from the source; when that
request is zero the iteration changes nothing at all (the source is not
touched); it consumes exactly the requested prefix of the source, adds
exactly the bytes the source actually returned to the occupancy, and the
occupancy gain never exceeds the free space `capacity - occupancy`. -/
theorem c8_fill_request_min (s : StreamState) (h : s.terminate = false) :
    fillRequestLen s = min s.readSize (s.bufferSize - s.readAvailable) ∧
    (fillRequestLen s = 0 → fillStep s = s) ∧
    (fillStep s).remaining = s.remaining.drop (fillRequestLen s) ∧
    (fillStep s).readAvailable
      = s.readAvailable + min (fillRequestLen s) s.remaining.length ∧
    (fillStep s).readAvailable - s.readAvailable ≤ s.bufferSize - s.readAvailable := by
  rw [fillStep_eq_of_noterm s h]
  refine ⟨rfl, ?_, ?_, ?_, ?_⟩
  · intro h0
    rw [if_pos h0]
  · split_ifs with h1 h2 h3
    · rw [h1, List.drop_zero]
    · have hnil : s.remaining = [] := by
        rw [List.length_take] at h2
        have := Nat.min_eq_zero_iff.mp h2
        rcases this with h3 | h3
        · exact absurd h3 h1
        · exact List.length_eq_zero.mp h3
      rw [hnil, List.drop_nil]
    · have hnil : s.remaining = [] := by
        rw [List.length_take] at h2
        have := Nat.min_eq_zero_iff.mp h2
        rcases this with h4 | h4
        · exact absurd h4 h1
        · exact List.length_eq_zero.mp h4
      rw [hnil, List.drop_nil]
    · rfl
  · split_ifs with h1 h2 h3
    · rw [h1]
      simp
    · rw [List.length_take] at h2
      simp [Nat.min_eq_zero_iff.mp h2 |>.resolve_left h1]
    · rw [List.length_take] at h2
      simp [Nat.min_eq_zero_iff.mp h2 |>.resolve_left h1]
    · dsimp only
      rw [List.length_take]
  · split_ifs with h1 h2 h3
    · omega
    · dsimp only
      omega
    · omega
    · dsimp only
      have hcl : (s.remaining.take (fillRequestLen s)).length ≤ fillRequestLen s := by
        simp [List.length_take]
      have hfree : fillRequestLen s ≤ s.bufferSize - s.readAvailable :=
        min_le_right _ _
      omega

/-- Witness for C8 at a concrete non-terminating state. -/
theorem c8_fill_request_min_witness :
    (fillRequestLen exState = 0 → fillStep exState = exState) ∧
    (fillStep exState).remaining = exState.remaining.drop (fillRequestLen exState) ∧
    (fillStep exState).readAvailable
      = exState.readAvailable + min (fillRequestLen exState) exState.remaining.length ∧
    (fillStep exState).readAvailable - exState.readAvailable
      ≤ exState.bufferSize - exState.readAvailable :=
  (c8_fill_request_min exState rfl).2

lemma step_terminated_empty (s : StreamState) (e : Ev)
    (ht : s.terminate = true) (h0 : s.readAvailable = 0) :
    (step s e).1.terminate = true ∧ (step s e).1.readAvailable = 0 := by
  cases e with
  | fill => simp [step, fillStep, ht, h0]
  | readEv len =>
    simp only [step, readOp]
    split_ifs
    · exact ⟨ht, h0⟩
    · exact ⟨ht, by dsimp only; omega⟩
  | skipEv len =>
    simp only [step, skipOp, readOp]
    split_ifs
    · exact ⟨ht, h0⟩
    · exact ⟨ht, by dsimp only; omega⟩

lemma run_terminated_empty (evs : List Ev) : ∀ s : StreamState,
    s.terminate = true → s.readAvailable = 0 →
    (run s evs).1.terminate = true ∧ (run s evs).1.readAvailable = 0 := by
  induction evs with
  | nil => intro s ht h0; exact ⟨ht, h0⟩
  | cons e es ih =>
    intro s ht h0
    have h1 := step_terminated_empty s e ht h0
    exact ih (step s e).1 h1.1 h1.2

/-- C4 counterexample: a running stream with an empty buffer whose source
has NOT ended (the refill task has simply not filled yet, `terminate` is
unset and the source still holds bytes) already returns 0 bytes from
`read`, contradicting "returns 0 only when not running or when the source
has ended and the buffer is empty". -/
theorem c4_counterexample :
    (readOp exState 1).2 = [] ∧ exState.running = true ∧
    exState.terminate = false ∧ exState.remaining ≠ [] := by
  refine ⟨by decide, rfl, rfl, by decide⟩

/-- C4 (amended): `read` returns 0 bytes only when the stream is not
running, the requested length is 0, or the buffer is currently empty;
while running it always delivers exactly `min(len, occupancy)` bytes, so
after the source has ended it first drains the remaining buffered bytes;
and once the refill task has terminated (`endWithSource` saw the source
return 0) and the buffer has drained, every later `read` — after any
further events whatsoever — returns 0 forever. -/
theorem c4_read_zero (s : StreamState) (len : Nat) (evs : List Ev) :
    ((readOp s len).2 = [] → s.running = false ∨ len = 0 ∨ s.readAvailable = 0) ∧
    (s.running = true → (readOp s len).2.length = min len s.readAvailable) ∧
    (s.terminate = true → s.readAvailable = 0 →
      (readOp (run s evs).1 len).2 = []) := by
  refine ⟨?_, ?_, ?_⟩
  · intro hout
    by_cases hr : s.running = false
    · exact Or.inl hr
    · have hlen := congrArg List.length hout
      simp only [readOp, if_neg hr, drainBytes_length, List.length_nil] at hlen
      rcases Nat.min_eq_zero_iff.mp hlen with h | h
      · exact Or.inr (Or.inl h)
      · exact Or.inr (Or.inr h)
  · intro hr
    simp only [readOp, hr]
    simp [drainBytes_length]
  · intro ht h0
    have h1 := run_terminated_empty evs s ht h0
    simp only [readOp]
    split_ifs
    · rfl
    · simp [drainBytes, h1.2]

/-- Witness for C4 (amended), exercising the terminated-and-drained case:
after the source has ended and the buffer is empty, a later read through
further events still returns nothing. -/
theorem c4_read_zero_witness :
    (readOp (run { exState with terminate := true, remaining := [] }
        [Ev.fill, Ev.readEv 3]).1 5).2 = [] :=
  (c4_read_zero { exState with terminate := true, remaining := [] } 5
    [Ev.fill, Ev.readEv 3]).2.2 rfl rfl
